import Mathlib

/-!
Shallow embedding of the conversation-viewer core (`src/types.ts`): the Entry
data model, the classifier predicates of `ConversationViewer`, the workflow
summarizer `generateProcessingSummary`, and the message segmenter
`groupMessages`.  Array reads that can be out of bounds in the source
(`assistantMessages[0]`) are modelled with `Option`; the forward scan's index
arithmetic (`i = nextIndex`, `i = j`) is modelled by recursing on the suffix
obtained with `List.drop`.  JavaScript string truthiness (`content.tool_use_id`,
`content.name || 'Unknown'`, `timestamp || ''`) is modelled as a comparison
with the empty string.
-/

/-- The `role` field of a `Message` (`'user' | 'assistant'`). -/
inductive Role where
  | user
  | assistant
deriving DecidableEq

/-- The `MessageContent` tagged union of `types.ts`: Text, Thinking, Image,
ToolUse and ToolResult items.  A ToolUse `input` (typed `any` in the source)
is modelled as a JSON-object-like association list of string fields; a
ToolResult `content` is modelled as a string (the segmenter never reads it). -/
inductive MessageContent where
  | text (text : String)
  | thinking (thinking : String)
  | image (mediaType : String) (data : String)
  | toolUse (id : String) (name : String) (input : List (String × String))
  | toolResult (toolUseId : String) (content : String) (isError : Bool)
deriving DecidableEq

/-- The `Message` interface: a role and an ordered list of content items. -/
structure Message where
  role : Role
  content : List MessageContent
deriving DecidableEq

/-- A `ConversationEntry`: only the fields that the segmenter reads are kept
(`message`, optional `timestamp`, optional `isSidechain`; a missing
`isSidechain` is falsy in the source, so it is modelled as `false`). -/
structure ConversationEntry where
  message : Message
  timestamp : Option String := none
  isSidechain : Bool := false
deriving DecidableEq

/-- Tag test `content.type === 'text'`. -/
def isTextContent : MessageContent → Bool
  | .text _ => true
  | _ => false

/-- Tag test `content.type === 'thinking'`. -/
def isThinkingContent : MessageContent → Bool
  | .thinking _ => true
  | _ => false

/-- Tag test `content.type === 'tool_use'`. -/
def isToolUseContent : MessageContent → Bool
  | .toolUse _ _ _ => true
  | _ => false

/-- Tag test `content.type === 'tool_result'`. -/
def isToolResultContent : MessageContent → Bool
  | .toolResult _ _ _ => true
  | _ => false

/-- `ConversationViewer.isToolResultMessage`: role is user and every content
item is a ToolResult. -/
def isToolResultMessage (entry : ConversationEntry) : Bool :=
  decide (entry.message.role = Role.user) &&
    entry.message.content.all isToolResultContent

/-- `ConversationViewer.isBashToolUse`: a ToolUse whose name is exactly
`"Bash"`. -/
def isBashToolUse : MessageContent → Bool
  | .toolUse _ name _ => decide (name = "Bash")
  | _ => false

/-- `ConversationViewer.isBashToolResult`: a tool-result-only message with at
least one ToolResult whose `tool_use_id` is truthy (i.e. non-empty). -/
def isBashToolResult (entry : ConversationEntry) : Bool :=
  isToolResultMessage entry &&
    entry.message.content.any (fun c =>
      match c with
      | .toolResult toolUseId _ _ => decide (¬ toolUseId = "")
      | _ => false)

/-- Recursive core of `separateInternalProcessing`.  `total` is the number of
Text items in the whole content list and `seen` the number already passed, so
the source's reference comparison `content !== lastTextContent` (each content
item of a decoded entry is a distinct object, so reference identity is
positional identity) becomes the positional test `seen + 1 = total`. -/
def separateGo (total : Nat) : Nat → List MessageContent →
    List MessageContent × List MessageContent
  | _, [] => ([], [])
  | seen, c :: cs =>
    match c with
    | .toolUse _ _ _ =>
      let r := separateGo total seen cs
      (c :: r.1, r.2)
    | .thinking _ =>
      let r := separateGo total seen cs
      (c :: r.1, r.2)
    | .text _ =>
      let r := separateGo total (seen + 1) cs
      if seen + 1 = total then (r.1, c :: r.2) else (c :: r.1, r.2)
    | _ =>
      let r := separateGo total seen cs
      (r.1, c :: r.2)

/-- `ConversationViewer.separateInternalProcessing`: splits an assistant
entry's content into (internal processing, final response).  ToolUse and
Thinking items, and every Text item other than the last one, are internal;
the last Text item and every other item (image, tool result) are final. -/
def separateInternalProcessing (entry : ConversationEntry) :
    List MessageContent × List MessageContent :=
  separateGo (entry.message.content.countP isTextContent) 0
    entry.message.content

/-- `content.name || 'Unknown'` for a ToolUse item. -/
def toolNameOf : MessageContent → String
  | .toolUse _ name _ => if name = "" then "Unknown" else name
  | _ => "Unknown"

/-- `toolCountMap.has(name)` on the association-list model of the map. -/
def hasKey (m : List (String × Nat)) (n : String) : Bool :=
  m.any (fun p => decide (p.1 = n))

/-- One `toolCountMap.set(name, (toolCountMap.get(name) || 0) + 1)` step on an
insertion-ordered association list (JavaScript `Map` preserves insertion
order). -/
def addName (m : List (String × Nat)) (n : String) : List (String × Nat) :=
  if hasKey m n then
    m.map (fun p => if p.1 = n then (p.1, p.2 + 1) else p)
  else m ++ [(n, 1)]

/-- Rendering of one tool-count entry: `name(count)` when the count exceeds
one, otherwise just `name`. -/
def renderToolEntry (p : String × Nat) : String :=
  if p.2 > 1 then p.1 ++ "(" ++ toString p.2 ++ ")" else p.1

/-- The tool clause of `generateProcessingSummary` (lines 189-209 of the
source, the `toolCount > 0` block). -/
def toolClause (internalProcessing : List MessageContent) : String :=
  let toolCount := (internalProcessing.filter isToolUseContent).length
  let toolNames := (internalProcessing.filter isToolUseContent).map toolNameOf
  let toolCountMap := toolNames.foldl addName []
  let uniqueTools := (toolCountMap.map renderToolEntry).take 3
  let plural := if toolCount > 1 then "s" else ""
  let sep := ", "
  let base := "🔧 " ++ toString toolCount ++ " tool" ++ plural ++ ": " ++
    String.intercalate sep uniqueTools
  if uniqueTools.length < toolCountMap.length then
    base ++ " +" ++ toString (toolCountMap.length - uniqueTools.length) ++
      " more"
  else base

/-- `ConversationViewer.generateProcessingSummary`. -/
def generateProcessingSummary (internalProcessing : List MessageContent)
    (subsequentToolResults : List ConversationEntry)
    (assistantMessageCount : Nat) : String :=
  let toolCount := (internalProcessing.filter isToolUseContent).length
  let thinkingCount := (internalProcessing.filter isThinkingContent).length
  let textCount := (internalProcessing.filter isTextContent).length
  let toolResultCount := subsequentToolResults.length
  let parts : List String :=
    (if assistantMessageCount > 1 then
      ["📝 " ++ toString assistantMessageCount ++ " assistant messages"]
    else []) ++
    (if thinkingCount > 0 then
      ["🤔 " ++ toString thinkingCount ++ " thinking step" ++
        (if thinkingCount > 1 then "s" else "")]
    else []) ++
    (if toolCount > 0 then [toolClause internalProcessing] else []) ++
    (if textCount > 0 then
      ["💭 " ++ toString textCount ++ " intermediate response" ++
        (if textCount > 1 then "s" else "")]
    else []) ++
    (if toolResultCount > 0 then
      ["📥 " ++ toString toolResultCount ++ " result" ++
        (if toolResultCount > 1 then "s" else "")]
    else [])
  let sep := ", "
  if parts.length > 0 then String.intercalate sep parts
  else "Processing steps"

/-- The `ProcessedMessage` tagged union: processing-workflow groups,
bash-workflow groups and regular messages. -/
inductive ProcessedMessage where
  | processingWorkflow (assistantMessages : List ConversationEntry)
      (internalProcessing : List MessageContent)
      (finalResponse : List MessageContent)
      (toolResults : List ConversationEntry)
      (summary : String) (timestamp : String)
  | bashWorkflow (bashInput : MessageContent)
      (bashOutput : ConversationEntry)
      (userComment : Option ConversationEntry) (timestamp : String)
  | regular (entry : ConversationEntry)
deriving DecidableEq

/-- Tag test for a bash-workflow group. -/
def isBashWorkflowGroup : ProcessedMessage → Bool
  | .bashWorkflow _ _ _ _ => true
  | _ => false

/-- Tag test for a processing-workflow group. -/
def isProcessingWorkflowGroup : ProcessedMessage → Bool
  | .processingWorkflow _ _ _ _ _ _ => true
  | _ => false

/-- The `assistantMessages.forEach` fold of `groupMessages` (lines 287-312):
accumulates all internal processing plus, for every assistant entry except the
last, that entry's final-response Text items; the final response is
*reassigned* to the last entry's own final response on the last iteration,
which discards any non-text items pushed into it by earlier iterations —
exactly as the source does. -/
def processRun (msgs : List ConversationEntry) :
    List MessageContent × List MessageContent :=
  msgs.enum.foldl
    (fun acc p =>
      let sep := separateInternalProcessing p.2
      let allInt := acc.1 ++ sep.1
      if p.1 = msgs.length - 1 then (allInt, sep.2)
      else
        (allInt ++ sep.2.filter isTextContent,
         acc.2 ++ sep.2.filter (fun c => !(isTextContent c))))
    ([], [])

/-- Lines 314-338 of `groupMessages`: emit a processing-workflow group when
there is internal processing or more than one collected assistant entry,
otherwise a regular group wrapping `assistantMessages[0]`.  The two reads of
`assistantMessages[0]` are modelled with `List.head?`. -/
def buildAssistantGroup (assistantMessages toolResults :
    List ConversationEntry) : Option ProcessedMessage :=
  let pr := processRun assistantMessages
  if pr.1.length > 0 ∨ assistantMessages.length > 1 then
    match assistantMessages.head? with
    | some first =>
      some (ProcessedMessage.processingWorkflow assistantMessages pr.1 pr.2
        toolResults
        (generateProcessingSummary pr.1 toolResults assistantMessages.length)
        (Option.getD first.timestamp ""))
    | none => none
  else
    match assistantMessages.head? with
    | some first => some (ProcessedMessage.regular first)
    | none => none

/-- The collection loop of `groupMessages` (lines 267-285): starting at the
current index, collect consecutive assistant entries into
`assistantMessages` and tool-result-only entries into `toolResults`, stopping
at the first entry that is neither; the third component counts the collected
entries (the source's `j - i`). -/
def collectRun : List ConversationEntry →
    List ConversationEntry × List ConversationEntry × Nat
  | [] => ([], [], 0)
  | x :: xs =>
    if x.message.role = Role.assistant then
      (x :: (collectRun xs).1, (collectRun xs).2.1, (collectRun xs).2.2 + 1)
    else if isToolResultMessage x then
      ((collectRun xs).1, x :: (collectRun xs).2.1, (collectRun xs).2.2 + 1)
    else ([], [], 0)

/-- The shell-workflow detection of `groupMessages` (lines 232-262) for an
assistant entry `e` followed by `rest`: find the first Bash ToolUse in `e`,
require the next entry to satisfy `isBashToolResult`, and optionally absorb a
user comment.  Returns the bash-workflow group together with how many entries
of `rest` were consumed (1 or 2, the source's `nextIndex - (i + 1)`). -/
def shellLookahead (e : ConversationEntry) (rest : List ConversationEntry) :
    Option (ProcessedMessage × Nat) :=
  match e.message.content.find? isBashToolUse with
  | none => none
  | some bashToolUse =>
    match rest with
    | [] => none
    | out :: rest2 =>
      if isBashToolResult out then
        match rest2 with
        | c :: _ =>
          if decide (c.message.role = Role.user) && !(isToolResultMessage c)
              && !c.isSidechain then
            some (ProcessedMessage.bashWorkflow bashToolUse out (some c)
              (Option.getD e.timestamp ""), 2)
          else
            some (ProcessedMessage.bashWorkflow bashToolUse out none
              (Option.getD e.timestamp ""), 1)
        | [] =>
          some (ProcessedMessage.bashWorkflow bashToolUse out none
            (Option.getD e.timestamp ""), 1)
      else none

/-- `ConversationViewer.groupMessages` (lines 224-350): the single forward
scan.  `none` models the out-of-contract `assistantMessages[0]` access of an
empty collection (which never happens, see `groupMessages_no_fault`). -/
def groupMessages : List ConversationEntry → Option (List ProcessedMessage)
  | [] => some []
  | e :: rest =>
    if hA : e.message.role = Role.assistant then
      match shellLookahead e rest with
      | some gr => (groupMessages (rest.drop gr.2)).map (fun gs => gr.1 :: gs)
      | none =>
        match buildAssistantGroup (collectRun (e :: rest)).1
            (collectRun (e :: rest)).2.1 with
        | some g =>
          (groupMessages ((e :: rest).drop (collectRun (e :: rest)).2.2)).map
            (fun gs => g :: gs)
        | none => none
    else
      (groupMessages rest).map (fun gs => ProcessedMessage.regular e :: gs)
termination_by l => l.length
decreasing_by
  · simp [List.length_drop]
    omega
  · simp [collectRun, hA, List.length_drop]
    omega
  · simp

/-- First-seen-order deduplication of a list of names: the order in which
`Map.entries()` lists the keys inserted by repeated `addName` steps. -/
def firstSeen : List String → List String
  | [] => []
  | n :: ns => n :: firstSeen (ns.filter (fun m => decide (¬ m = n)))
termination_by l => l.length
decreasing_by
  simp only [List.length_cons]
  have := List.length_filter_le (fun m => decide (¬ m = n)) ns
  omega

/-- The tool clause as the specification words it: up to the first 3 distinct
tool names in first-seen order, each rendered as `name(count)` exactly when
the name occurs more than once, with a `+N more` suffix iff there are more
than 3 distinct names, where `N` is the distinct-name count minus 3.  This is
the comparison definition for the refinement statement
`toolClause_matches_spec`; the executable translation of the source is
`toolClause`. -/
def toolClauseSpec (internalProcessing : List MessageContent) : String :=
  let names := (internalProcessing.filter isToolUseContent).map toolNameOf
  let distinct := firstSeen names
  let shown := (distinct.take 3).map (fun n =>
    if names.count n > 1 then n ++ "(" ++ toString (names.count n) ++ ")"
    else n)
  let sep := ", "
  let base := "🔧 " ++ toString names.length ++ " tool" ++
    (if names.length > 1 then "s" else "") ++ ": " ++
    String.intercalate sep shown
  if 3 < distinct.length then
    base ++ " +" ++ toString (distinct.length - 3) ++ " more"
  else base

/-- Concrete entry: an assistant turn whose only content is a Text item. -/
def exPlainAssistant : ConversationEntry :=
  { message := { role := Role.assistant,
                 content := [MessageContent.text "hi"] } }

/-- Concrete entry: a tool-result-only user turn with a non-empty
`tool_use_id`. -/
def exTrailingToolResult : ConversationEntry :=
  { message := { role := Role.user,
                 content := [MessageContent.toolResult "toolu_0" "out" false] } }

/-- Concrete entry: an assistant turn whose only content is an Image item. -/
def exImageAssistant : ConversationEntry :=
  { message := { role := Role.assistant,
                 content := [MessageContent.image "image/png" "d"] } }

/-- Concrete entry: an assistant turn whose only content is the Text item
`"final"`. -/
def exFinalTextAssistant : ConversationEntry :=
  { message := { role := Role.assistant,
                 content := [MessageContent.text "final"] } }

/-- Concrete entry: an assistant turn invoking the Bash tool with command
`"ls -la"`. -/
def exBashAssistant : ConversationEntry :=
  { message := { role := Role.assistant,
                 content := [MessageContent.toolUse "1" "Bash"
                   [("command", "ls -la")]] } }

/-- Concrete entry: a tool-result-only user turn whose single ToolResult has
an *empty* `tool_use_id`. -/
def exEmptyIdResult : ConversationEntry :=
  { message := { role := Role.user,
                 content := [MessageContent.toolResult "" "out" false] } }

/-- Concrete entry: a tool-result-only user turn with a non-empty
`tool_use_id`, playing the shell-output role. -/
def exShellResult : ConversationEntry :=
  { message := { role := Role.user,
                 content := [MessageContent.toolResult "toolu_1" "out" false] } }

/-- Concrete entry: a plain user remark with text `"thanks"`. -/
def exUserComment : ConversationEntry :=
  { message := { role := Role.user,
                 content := [MessageContent.text "thanks"] } }

/-- Concrete entry: an assistant turn with a Thinking item and a Text item. -/
def exThinkingAssistant : ConversationEntry :=
  { message := { role := Role.assistant,
                 content := [MessageContent.thinking "hm",
                   MessageContent.text "ok"] } }

/-- Concrete entry: a user turn with an *empty* content list. -/
def exEmptyUser : ConversationEntry :=
  { message := { role := Role.user, content := [] } }

/-- Concrete entry: an assistant turn containing two Bash ToolUse items. -/
def exTwoBashAssistant : ConversationEntry :=
  { message := { role := Role.assistant,
                 content := [MessageContent.toolUse "1" "Bash"
                     [("command", "a")],
                   MessageContent.toolUse "2" "Bash" [("command", "b")]] } }

/-- An assistant entry whose content is exactly one Text item, with arbitrary
timestamp and sidechain flag. -/
def mkTextAssistant (t : String) (ts : Option String) (sc : Bool) :
    ConversationEntry :=
  { message := { role := Role.assistant, content := [MessageContent.text t] },
    timestamp := ts, isSidechain := sc }

theorem groupMessages_nil : groupMessages [] = some [] := by
  simp [groupMessages]

theorem groupMessages_cons_user (e : ConversationEntry)
    (rest : List ConversationEntry) (h : ¬ e.message.role = Role.assistant) :
    groupMessages (e :: rest) =
      (groupMessages rest).map (fun gs => ProcessedMessage.regular e :: gs) := by
  rw [groupMessages]
  simp [h]

theorem groupMessages_cons_shell (e : ConversationEntry)
    (rest : List ConversationEntry) (g : ProcessedMessage) (k : Nat)
    (hA : e.message.role = Role.assistant)
    (hS : shellLookahead e rest = some (g, k)) :
    groupMessages (e :: rest) =
      (groupMessages (rest.drop k)).map (fun gs => g :: gs) := by
  rw [groupMessages]
  simp [hA, hS]

theorem groupMessages_cons_run (e : ConversationEntry)
    (rest : List ConversationEntry)
    (hA : e.message.role = Role.assistant)
    (hS : shellLookahead e rest = none) :
    groupMessages (e :: rest) =
      match buildAssistantGroup (collectRun (e :: rest)).1
          (collectRun (e :: rest)).2.1 with
      | some g =>
        (groupMessages ((e :: rest).drop (collectRun (e :: rest)).2.2)).map
          (fun gs => g :: gs)
      | none => none := by
  rw [groupMessages]
  simp [hA, hS]

theorem collectRun_cons_assistant (x : ConversationEntry)
    (xs : List ConversationEntry) (h : x.message.role = Role.assistant) :
    collectRun (x :: xs) =
      (x :: (collectRun xs).1, (collectRun xs).2.1,
        (collectRun xs).2.2 + 1) := by
  simp [collectRun, h]

theorem buildAssistantGroup_cons_isSome (a : ConversationEntry)
    (tl trs : List ConversationEntry) :
    ∃ g, buildAssistantGroup (a :: tl) trs = some g := by
  unfold buildAssistantGroup
  simp only [List.head?_cons]
  split
  · exact ⟨_, rfl⟩
  · exact ⟨_, rfl⟩

theorem groupMessages_sound : ∀ (n : Nat) (l : List ConversationEntry),
    l.length ≤ n → ∃ gs, groupMessages l = some gs ∧ gs.length ≤ l.length := by
  intro n
  induction n with
  | zero =>
    intro l hl
    have : l = [] := List.eq_nil_of_length_eq_zero (Nat.le_zero.mp hl)
    subst this
    exact ⟨[], groupMessages_nil, by simp⟩
  | succ n ih =>
    intro l hl
    match l with
    | [] => exact ⟨[], groupMessages_nil, by simp⟩
    | e :: rest =>
      by_cases hA : e.message.role = Role.assistant
      · cases hS : shellLookahead e rest with
        | some gr =>
          obtain ⟨g, k⟩ := gr
          obtain ⟨gs, hgs, hlen⟩ := ih (rest.drop k)
            (by simp only [List.length_drop]; simp at hl; omega)
          refine ⟨g :: gs, ?_, ?_⟩
          · rw [groupMessages_cons_shell e rest g k hA hS, hgs]
            rfl
          · simp only [List.length_drop] at hlen
            simp at hlen ⊢
            omega
        | none =>
          rw [groupMessages_cons_run e rest hA hS]
          rw [collectRun_cons_assistant e rest hA]
          simp only [List.drop_succ_cons]
          obtain ⟨g, hg⟩ :=
            buildAssistantGroup_cons_isSome e (collectRun rest).1
              (collectRun rest).2.1
          rw [hg]
          obtain ⟨gs, hgs, hlen⟩ := ih (rest.drop (collectRun rest).2.2)
            (by simp only [List.length_drop]; simp at hl; omega)
          refine ⟨g :: gs, ?_, ?_⟩
          · rw [hgs]
            rfl
          · simp only [List.length_drop] at hlen
            simp at hlen ⊢
            omega
      · obtain ⟨gs, hgs, hlen⟩ := ih rest (by simp at hl; omega)
        refine ⟨ProcessedMessage.regular e :: gs, ?_, ?_⟩
        · rw [groupMessages_cons_user e rest hA, hgs]
          rfl
        · simp
          omega

theorem groupMessages_total (l : List ConversationEntry) :
    ∃ gs, groupMessages l = some gs :=
  (groupMessages_sound l.length l le_rfl).imp (fun _ h => h.1)

/-- Claim C7: on every entry sequence whose entries each have non-empty
content, the segmenter (and the summarizer it calls) evaluates without any
fault: the `Option`-modelled `assistantMessages[0]` reads always succeed, so
`groupMessages` returns a result (`some`).  (The summarizer and
`separateInternalProcessing` are total by construction: their only guarded
access, the last-Text lookup, is modelled positionally.) -/
theorem groupMessages_no_fault (l : List ConversationEntry)
    (h : ∀ e ∈ l, e.message.content ≠ []) :
    (groupMessages l).isSome = true := by
  obtain ⟨gs, hgs, _⟩ := groupMessages_sound l.length l le_rfl
  rw [hgs]
  rfl

theorem groupMessages_no_fault_witness :
    (∀ e ∈ [exThinkingAssistant, exShellResult],
      e.message.content ≠ []) ∧
    (groupMessages [exThinkingAssistant, exShellResult]).isSome = true :=
  ⟨by decide, groupMessages_no_fault [exThinkingAssistant, exShellResult]
    (by decide)⟩

/-- Claim C8: `groupMessages` terminates after at most `length entries`
iterations — every branch of the scan strictly advances the cursor, so the
number of emitted groups (one per iteration) is at most the number of input
entries.  (Termination itself is certified by the `termination_by` measure of
the definition.) -/
theorem groupMessages_group_count_le (l : List ConversationEntry)
    (gs : List ProcessedMessage) (h : groupMessages l = some gs) :
    gs.length ≤ l.length := by
  obtain ⟨gs', hgs', hlen⟩ := groupMessages_sound l.length l le_rfl
  rw [h] at hgs'
  cases Option.some.inj hgs'
  exact hlen

unseal groupMessages in
theorem groupMessages_group_count_le_witness :
    groupMessages [exBashAssistant, exShellResult, exUserComment] =
      some [ProcessedMessage.bashWorkflow
        (MessageContent.toolUse "1" "Bash" [("command", "ls -la")])
        exShellResult (some exUserComment) ""] ∧
    ([ProcessedMessage.bashWorkflow
        (MessageContent.toolUse "1" "Bash" [("command", "ls -la")])
        exShellResult (some exUserComment) ""] :
      List ProcessedMessage).length ≤
      ([exBashAssistant, exShellResult, exUserComment] :
        List ConversationEntry).length :=
  ⟨by decide, groupMessages_group_count_le
    [exBashAssistant, exShellResult, exUserComment] _ (by decide)⟩

theorem exists_find?_of_any {α : Type} (p : α → Bool) (l : List α)
    (h : l.any p = true) : ∃ u, l.find? p = some u := by
  have : (l.find? p).isSome = true := by
    rw [List.find?_isSome]
    simpa [List.any_eq_true] using h
  exact Option.isSome_iff_exists.mp this

theorem find?_eq_head?_filter {α : Type} (p : α → Bool) :
    ∀ l : List α, l.find? p = (l.filter p).head? := by
  intro l
  induction l with
  | nil => rfl
  | cons x xs ih =>
    by_cases h : p x
    · rw [List.find?_cons_of_pos _ h, List.filter_cons_of_pos h]
      rfl
    · rw [List.find?_cons_of_neg _ h, List.filter_cons_of_neg h]
      exact ih

theorem shellLookahead_fires (e out : ConversationEntry)
    (rest2 : List ConversationEntry) (u : MessageContent)
    (hF : e.message.content.find? isBashToolUse = some u)
    (hR : isBashToolResult out = true) :
    ∃ comment k, shellLookahead e (out :: rest2) =
      some (ProcessedMessage.bashWorkflow u out comment
        (Option.getD e.timestamp ""), k) := by
  cases rest2 with
  | nil =>
    refine ⟨none, 1, ?_⟩
    unfold shellLookahead
    rw [hF]
    simp [hR]
  | cons c rest3 =>
    by_cases hc : (decide (c.message.role = Role.user) &&
        !(isToolResultMessage c) && !c.isSidechain) = true
    · refine ⟨some c, 2, ?_⟩
      unfold shellLookahead
      rw [hF]
      simp [hR, hc]
    · refine ⟨none, 1, ?_⟩
      unfold shellLookahead
      rw [hF]
      simp [hR, hc]

theorem shellLookahead_with_comment (e out c : ConversationEntry)
    (rest : List ConversationEntry) (u : MessageContent)
    (hF : e.message.content.find? isBashToolUse = some u)
    (hR : isBashToolResult out = true)
    (hcu : c.message.role = Role.user)
    (hct : isToolResultMessage c = false)
    (hcs : c.isSidechain = false) :
    shellLookahead e (out :: c :: rest) =
      some (ProcessedMessage.bashWorkflow u out (some c)
        (Option.getD e.timestamp ""), 2) := by
  unfold shellLookahead
  rw [hF]
  simp [hR, hcu, hct, hcs]

unseal groupMessages in
/-- Claim C3 counterexample: an assistant entry with a Bash ToolUse is
immediately followed by a tool-result-only user entry that has a ToolResult
item, yet — because that ToolResult's `tool_use_id` is the empty string, which
is falsy in `isBashToolResult` — the segmenter emits a ProcessingWorkflow and
no ShellWorkflow, contradicting the claim that any tool-result-only message
with at least one ToolResult item qualifies as the shell result. -/
theorem shell_result_empty_id_cex :
    exBashAssistant.message.role = Role.assistant ∧
    exBashAssistant.message.content.any isBashToolUse = true ∧
    isToolResultMessage exEmptyIdResult = true ∧
    exEmptyIdResult.message.content.any isToolResultContent = true ∧
    groupMessages [exBashAssistant, exEmptyIdResult] =
      some [ProcessedMessage.processingWorkflow [exBashAssistant]
        [MessageContent.toolUse "1" "Bash" [("command", "ls -la")]] []
        [exEmptyIdResult] "🔧 1 tool: Bash, 📥 1 result" ""] ∧
    isBashWorkflowGroup (ProcessedMessage.processingWorkflow [exBashAssistant]
      [MessageContent.toolUse "1" "Bash" [("command", "ls -la")]] []
      [exEmptyIdResult] "🔧 1 tool: Bash, 📥 1 result" "") = false := by
  decide

/-- Claim C3 (amended): whenever the forward scan reaches an assistant entry
that contains a Bash ToolUse and the immediately following entry is
tool-result-only with at least one ToolResult whose `tool_use_id` is
non-empty (`isBashToolResult`), the segmenter emits a ShellWorkflow group for
that pair — never a ProcessingWorkflow — regardless of any other
internal-processing content in the assistant entry, and without checking the
result's tool name or matching its id against the invocation's id. -/
theorem shell_precedence_head (e out : ConversationEntry)
    (rest : List ConversationEntry)
    (hA : e.message.role = Role.assistant)
    (hB : e.message.content.any isBashToolUse = true)
    (hR : isBashToolResult out = true) :
    ∃ u comment gs,
      e.message.content.find? isBashToolUse = some u ∧
      groupMessages (e :: out :: rest) =
        some (ProcessedMessage.bashWorkflow u out comment
          (Option.getD e.timestamp "") :: gs) := by
  obtain ⟨u, hF⟩ := exists_find?_of_any isBashToolUse e.message.content hB
  obtain ⟨comment, k, hS⟩ := shellLookahead_fires e out rest u hF hR
  obtain ⟨gs, hgs⟩ := groupMessages_total ((out :: rest).drop k)
  refine ⟨u, comment, gs, hF, ?_⟩
  rw [groupMessages_cons_shell e (out :: rest) _ k hA hS, hgs]
  rfl

theorem shell_precedence_head_witness :
    (exBashAssistant.message.role = Role.assistant ∧
      exBashAssistant.message.content.any isBashToolUse = true ∧
      isBashToolResult exShellResult = true) ∧
    (∃ u comment gs,
      exBashAssistant.message.content.find? isBashToolUse = some u ∧
      groupMessages [exBashAssistant, exShellResult] =
        some (ProcessedMessage.bashWorkflow u exShellResult comment
          (Option.getD exBashAssistant.timestamp "") :: gs)) :=
  ⟨⟨by decide, by decide, by decide⟩,
    shell_precedence_head exBashAssistant exShellResult []
      (by decide) (by decide) (by decide)⟩

unseal groupMessages in
/-- Claim C5: when a shell workflow fires on a pair and the next entry is a
user entry that is neither tool-result-only nor a sidechain entry, that entry
is attached as the group's `userComment` and consumed (the remaining groups
come from the rest of the sequence only); and the literal scenario
`[assistant[Bash "ls -la"], user[ToolResult], user[Text "thanks"]]` yields
exactly one ShellWorkflow group carrying command `"ls -la"` and comment
`"thanks"`, with no trailing Regular group. -/
theorem shell_userComment_attached :
    (∀ (e out c : ConversationEntry) (rest : List ConversationEntry),
      e.message.role = Role.assistant →
      e.message.content.any isBashToolUse = true →
      isBashToolResult out = true →
      c.message.role = Role.user →
      isToolResultMessage c = false →
      c.isSidechain = false →
      ∃ u, e.message.content.find? isBashToolUse = some u ∧
        groupMessages (e :: out :: c :: rest) =
          (groupMessages rest).map (fun gs =>
            ProcessedMessage.bashWorkflow u out (some c)
              (Option.getD e.timestamp "") :: gs)) ∧
    groupMessages [exBashAssistant, exShellResult, exUserComment] =
      some [ProcessedMessage.bashWorkflow
        (MessageContent.toolUse "1" "Bash" [("command", "ls -la")])
        exShellResult (some exUserComment) ""] := by
  constructor
  · intro e out c rest hA hB hR hcu hct hcs
    obtain ⟨u, hF⟩ := exists_find?_of_any isBashToolUse e.message.content hB
    have hS := shellLookahead_with_comment e out c rest u hF hR hcu hct hcs
    exact ⟨u, hF, groupMessages_cons_shell e (out :: c :: rest) _ 2 hA hS⟩
  · decide

theorem shell_userComment_attached_witness :
    (exBashAssistant.message.role = Role.assistant ∧
      exBashAssistant.message.content.any isBashToolUse = true ∧
      isBashToolResult exShellResult = true ∧
      exUserComment.message.role = Role.user ∧
      isToolResultMessage exUserComment = false ∧
      exUserComment.isSidechain = false) ∧
    (∃ u, exBashAssistant.message.content.find? isBashToolUse = some u ∧
      groupMessages [exBashAssistant, exShellResult, exUserComment] =
        (groupMessages []).map (fun gs =>
          ProcessedMessage.bashWorkflow u exShellResult (some exUserComment)
            (Option.getD exBashAssistant.timestamp "") :: gs)) :=
  ⟨⟨by decide, by decide, by decide, by decide, by decide, by decide⟩,
    shell_userComment_attached.1 exBashAssistant exShellResult exUserComment []
      (by decide) (by decide) (by decide) (by decide) (by decide) (by decide)⟩

/-- Claim C9: when the shell branch fires on an assistant entry containing
more than one Bash ToolUse item, the stored shell invocation is the *first*
Bash ToolUse in content order (the head of the filtered content), and the
emitted group carries only that item, the output entry, the optional comment
and the timestamp — none of the entry's other content items. -/
theorem shell_branch_takes_first_bash (e out : ConversationEntry)
    (rest : List ConversationEntry)
    (hA : e.message.role = Role.assistant)
    (hR : isBashToolResult out = true)
    (hTwo : 2 ≤ (e.message.content.filter isBashToolUse).length) :
    ∃ u comment gs,
      (e.message.content.filter isBashToolUse).head? = some u ∧
      groupMessages (e :: out :: rest) =
        some (ProcessedMessage.bashWorkflow u out comment
          (Option.getD e.timestamp "") :: gs) := by
  cases hh : (e.message.content.filter isBashToolUse).head? with
  | none =>
    rw [List.head?_eq_none_iff] at hh
    rw [hh] at hTwo
    simp at hTwo
  | some u =>
    have hF : e.message.content.find? isBashToolUse = some u := by
      rw [find?_eq_head?_filter]
      exact hh
    obtain ⟨comment, k, hS⟩ := shellLookahead_fires e out rest u hF hR
    obtain ⟨gs, hgs⟩ := groupMessages_total ((out :: rest).drop k)
    refine ⟨u, comment, gs, rfl, ?_⟩
    rw [groupMessages_cons_shell e (out :: rest) _ k hA hS, hgs]
    rfl

theorem shell_branch_takes_first_bash_witness :
    (exTwoBashAssistant.message.role = Role.assistant ∧
      isBashToolResult exShellResult = true ∧
      2 ≤ (exTwoBashAssistant.message.content.filter isBashToolUse).length) ∧
    (∃ u comment gs,
      (exTwoBashAssistant.message.content.filter isBashToolUse).head? =
        some u ∧
      groupMessages [exTwoBashAssistant, exShellResult] =
        some (ProcessedMessage.bashWorkflow u exShellResult comment
          (Option.getD exTwoBashAssistant.timestamp "") :: gs)) :=
  ⟨⟨by decide, by decide, by decide⟩,
    shell_branch_takes_first_bash exTwoBashAssistant exShellResult []
      (by decide) (by decide) (by decide)⟩

/-- Claim C4: for a run collected by the assistant branch (the collected
assistant entries always start with the entry the branch fired on), a
ProcessingWorkflow group is emitted iff the accumulated internal processing
is non-empty or more than one assistant entry was collected; otherwise a
Regular group wrapping the single collected assistant entry is emitted.  In
particular an assistant entry containing exactly one Text item and nothing
else, alone in the sequence, yields a Regular group, not a
ProcessingWorkflow. -/
theorem assistant_branch_group_classification :
    (∀ (a : ConversationEntry) (tl trs : List ConversationEntry),
      ((processRun (a :: tl)).1 = [] ∧ tl = [] →
        buildAssistantGroup (a :: tl) trs =
          some (ProcessedMessage.regular a)) ∧
      ((processRun (a :: tl)).1 ≠ [] ∨ tl ≠ [] →
        buildAssistantGroup (a :: tl) trs =
          some (ProcessedMessage.processingWorkflow (a :: tl)
            (processRun (a :: tl)).1 (processRun (a :: tl)).2 trs
            (generateProcessingSummary (processRun (a :: tl)).1 trs
              (a :: tl).length)
            (Option.getD a.timestamp "")))) ∧
    (∀ (t : String) (ts : Option String) (sc : Bool),
      groupMessages [mkTextAssistant t ts sc] =
        some [ProcessedMessage.regular (mkTextAssistant t ts sc)]) := by
  constructor
  · intro a tl trs
    constructor
    · rintro ⟨h1, h2⟩
      subst h2
      unfold buildAssistantGroup
      rw [if_neg, List.head?_cons]
      rw [h1]
      simp
    · intro h
      unfold buildAssistantGroup
      rw [if_pos, List.head?_cons]
      rcases h with h | h
      · exact Or.inl (by simpa [List.length_pos] using h)
      · refine Or.inr ?_
        simp only [List.length_cons]
        have := List.length_pos.mpr h
        omega
  · intro t ts sc
    have hF : ((mkTextAssistant t ts sc).message.content.find?
        isBashToolUse) = none := by
      simp [mkTextAssistant, List.find?, isBashToolUse]
    have hS : shellLookahead (mkTextAssistant t ts sc) [] = none := by
      unfold shellLookahead
      rw [hF]
    rw [groupMessages_cons_run _ [] rfl hS]
    have hcr : collectRun [mkTextAssistant t ts sc] =
        ([mkTextAssistant t ts sc], [], 1) := by
      simp [collectRun, mkTextAssistant]
    rw [hcr]
    have hpr : processRun [mkTextAssistant t ts sc] =
        ([], [MessageContent.text t]) := by
      simp [processRun, List.enum, List.enumFrom, separateInternalProcessing,
        separateGo, isTextContent, List.countP, List.countP.go,
        mkTextAssistant]
    have hb : buildAssistantGroup [mkTextAssistant t ts sc] [] =
        some (ProcessedMessage.regular (mkTextAssistant t ts sc)) := by
      unfold buildAssistantGroup
      rw [hpr]
      simp
    rw [hb]
    simp [groupMessages_nil]

theorem assistant_branch_group_classification_witness :
    (((processRun [exThinkingAssistant]).1 ≠ [] ∨
        ([] : List ConversationEntry) ≠ []) ∧
      buildAssistantGroup [exThinkingAssistant] [] =
        some (ProcessedMessage.processingWorkflow [exThinkingAssistant]
          (processRun [exThinkingAssistant]).1
          (processRun [exThinkingAssistant]).2 []
          (generateProcessingSummary (processRun [exThinkingAssistant]).1 []
            ([exThinkingAssistant] : List ConversationEntry).length)
          (Option.getD exThinkingAssistant.timestamp ""))) ∧
    groupMessages [mkTextAssistant "hi" none false] =
      some [ProcessedMessage.regular (mkTextAssistant "hi" none false)] :=
  ⟨⟨by decide,
    (assistant_branch_group_classification.1 exThinkingAssistant [] []).2
      (by decide)⟩,
    assistant_branch_group_classification.2 "hi" none false⟩

unseal groupMessages in
/-- Claim C10: `isToolResultMessage` is vacuously true on a user entry with
empty content, and such an entry encountered during run collection is
absorbed into the group's `toolResults` instead of stopping the run as a
genuine user message (here: one ProcessingWorkflow group holding the empty
user entry among its tool results, not two groups). -/
theorem empty_content_is_toolResultMessage :
    (∀ e : ConversationEntry, e.message.role = Role.user →
      e.message.content = [] → isToolResultMessage e = true) ∧
    groupMessages [exThinkingAssistant, exEmptyUser] =
      some [ProcessedMessage.processingWorkflow [exThinkingAssistant]
        [MessageContent.thinking "hm"] [MessageContent.text "ok"]
        [exEmptyUser] "🤔 1 thinking step, 📥 1 result" ""] := by
  constructor
  · intro e h1 h2
    simp [isToolResultMessage, h1, h2]
  · decide

theorem empty_content_is_toolResultMessage_witness :
    (exEmptyUser.message.role = Role.user ∧
      exEmptyUser.message.content = []) ∧
    isToolResultMessage exEmptyUser = true :=
  ⟨⟨by decide, by decide⟩,
    empty_content_is_toolResultMessage.1 exEmptyUser (by decide) (by decide)⟩

unseal groupMessages in
/-- Claim C1 (failing input): the partition property fails on the code.  The
assistant entry `exPlainAssistant` (one Text item, no internal processing) is
followed by the tool-result-only entry `exTrailingToolResult`; the run
collector absorbs both, the branch then collapses to a single Regular group
wrapping only the assistant entry, and the collected tool-result entry is
referenced by no group at all — it is silently dropped from the output, so
flattening the output does not reproduce the input.  (The collapse branch of
the source, lines 329-335, emits `{type: 'regular', entry:
assistantMessages[0]}` and discards `toolResults`.) -/
theorem groupMessages_drops_trailing_toolResult :
    isToolResultMessage exTrailingToolResult = true ∧
    groupMessages [exPlainAssistant, exTrailingToolResult] =
      some [ProcessedMessage.regular exPlainAssistant] := by
  decide

unseal groupMessages in
/-- Claim C2 (failing input): non-text final-response items of earlier
collected assistant entries are *not* preserved in the group's
`finalResponse`.  `exImageAssistant`'s separation puts its Image item into
its final response, yet after collecting the two-entry run the emitted
group's `finalResponse` is only the last entry's `[Text "final"]`: the
`finalResponse = msgFinalResponse` reassignment on the last iteration of the
source's forEach (line 300) discards the items pushed by earlier iterations
(line 308), contradicting the source's own comment `Keep non-text content
(like images) in final response`. -/
theorem groupMessages_drops_earlier_image :
    separateInternalProcessing exImageAssistant =
      ([], [MessageContent.image "image/png" "d"]) ∧
    groupMessages [exImageAssistant, exFinalTextAssistant] =
      some [ProcessedMessage.processingWorkflow
        [exImageAssistant, exFinalTextAssistant] []
        [MessageContent.text "final"] [] "📝 2 assistant messages" ""] := by
  decide

theorem firstSeen_nil : firstSeen [] = [] := by
  simp [firstSeen]

theorem firstSeen_cons (n : String) (ns : List String) :
    firstSeen (n :: ns) =
      n :: firstSeen (ns.filter (fun m => decide (¬ m = n))) := by
  rw [firstSeen]

theorem mem_firstSeen : ∀ (l : List String) (a : String),
    a ∈ firstSeen l → a ∈ l := by
  intro l
  induction l using firstSeen.induct with
  | case1 =>
    intro a ha
    simp [firstSeen_nil] at ha
  | case2 n ns ih =>
    intro a ha
    rw [firstSeen_cons] at ha
    rcases List.mem_cons.mp ha with rfl | h
    · exact List.mem_cons_self _ _
    · exact List.mem_cons_of_mem _ (List.mem_of_mem_filter (ih _ h))

theorem hasKey_iff (m : List (String × Nat)) (n : String) :
    hasKey m n = true ↔ ∃ p ∈ m, p.1 = n := by
  simp [hasKey, List.any_eq_true]

theorem hasKey_addName (m : List (String × Nat)) (x n : String) :
    hasKey (addName m x) n = (hasKey m n || decide (n = x)) := by
  rw [Bool.eq_iff_iff]
  simp only [Bool.or_eq_true, decide_eq_true_eq, hasKey_iff]
  unfold addName
  by_cases h : hasKey m x
  · rw [if_pos h]
    constructor
    · rintro ⟨p, hp, hpn⟩
      obtain ⟨q, hq, hupd⟩ := List.mem_map.mp hp
      by_cases hqx : q.1 = x
      · rw [if_pos hqx] at hupd
        subst hupd
        right
        rw [← hpn]
        exact hqx
      · rw [if_neg hqx] at hupd
        subst hupd
        exact Or.inl ⟨q, hq, hpn⟩
    · rintro (⟨p, hp, hpn⟩ | hnx)
      · refine ⟨if p.1 = x then (p.1, p.2 + 1) else p,
          List.mem_map_of_mem _ hp, ?_⟩
        split <;> exact hpn
      · subst hnx
        obtain ⟨p, hp, hpx⟩ := (hasKey_iff m n).mp h
        exact ⟨(p.1, p.2 + 1),
          List.mem_map.mpr ⟨p, hp, by rw [if_pos hpx]⟩, hpx⟩
  · rw [if_neg h]
    constructor
    · rintro ⟨p, hp, hpn⟩
      rcases List.mem_append.mp hp with hm | hone
      · exact Or.inl ⟨p, hm, hpn⟩
      · right
        simp only [List.mem_singleton] at hone
        rw [hone] at hpn
        exact hpn.symm
    · rintro (⟨p, hp, hpn⟩ | hnx)
      · exact ⟨p, List.mem_append_left _ hp, hpn⟩
      · subst hnx
        exact ⟨(n, 1), List.mem_append_right _ (by simp), rfl⟩

theorem mem_hasKey (m : List (String × Nat)) (p : String × Nat) (hp : p ∈ m) :
    hasKey m p.1 = true :=
  (hasKey_iff _ _).mpr ⟨p, hp, rfl⟩

theorem foldl_addName (names : List String) : ∀ m : List (String × Nat),
    names.foldl addName m =
      m.map (fun p => (p.1, p.2 + names.count p.1)) ++
      (firstSeen (names.filter (fun n => !(hasKey m n)))).map
        (fun n => (n, names.count n)) := by
  induction names with
  | nil =>
    intro m
    simp [firstSeen_nil]
  | cons x xs ih =>
    intro m
    rw [List.foldl_cons, ih (addName m x)]
    by_cases hx : hasKey m x
    · have hfil : xs.filter (fun n => !(hasKey (addName m x) n)) =
          xs.filter (fun n => !(hasKey m n)) := by
        apply List.filter_congr
        intro a _
        rw [hasKey_addName]
        by_cases ha : hasKey m a
        · simp [ha]
        · simp only [ha, Bool.false_or, Bool.not_eq_true']
          have : ¬ a = x := by
            intro haa
            rw [haa] at ha
            exact absurd hx ha
          simp [this]
      congr 1
      · unfold addName
        rw [if_pos hx, List.map_map]
        apply List.map_congr_left
        intro p hp
        by_cases hpx : p.1 = x
        · simp only [Function.comp_apply, if_pos hpx, List.count_cons, hpx]
          simp
          omega
        · have hxp : ¬ (x = p.1) := fun hh => hpx hh.symm
          simp only [Function.comp_apply, if_neg hpx, List.count_cons]
          simp [hxp]
      · rw [hfil, List.filter_cons_of_neg (by simp [hx])]
        apply List.map_congr_left
        intro n hn
        have hmem := mem_firstSeen _ _ hn
        have hpred := (List.mem_filter.mp hmem).2
        have hnx : ¬ x = n := by
          intro heq
          rw [← heq] at hpred
          simp [hx] at hpred
        simp [List.count_cons, hnx]
    · have haddx : addName m x = m ++ [(x, 1)] := by
        unfold addName
        rw [if_neg hx]
      rw [haddx, List.map_append]
      have hfil2 : xs.filter (fun n => !(hasKey (m ++ [(x, 1)]) n)) =
          (xs.filter (fun n => !(hasKey m n))).filter
            (fun n => decide (¬ n = x)) := by
        rw [List.filter_filter]
        apply List.filter_congr
        intro a _
        rw [← haddx, hasKey_addName]
        by_cases ha : hasKey m a <;> by_cases hax : a = x <;>
          simp [ha, hax]
      rw [hfil2]
      rw [List.filter_cons_of_pos (by simp [hx])]
      rw [firstSeen_cons]
      rw [List.append_assoc]
      congr 1
      · apply List.map_congr_left
        intro p hp
        have hkey := mem_hasKey m p hp
        have hpx : ¬ (x = p.1) := by
          intro heq
          rw [heq] at hx
          exact absurd hkey hx
        simp [List.count_cons, hpx]
      · simp only [List.map_cons, List.map_nil, List.singleton_append]
        congr 1
        · simp [List.count_cons]
          omega
        · apply List.map_congr_left
          intro n hn
          have hmem := mem_firstSeen _ _ hn
          have hpred := (List.mem_filter.mp hmem).2
          have hnx : ¬ x = n := by
            intro heq
            rw [← heq] at hpred
            simp at hpred
          simp [List.count_cons, hnx]


/-- Claim C6: for every internal-processing list with at least one ToolUse
item, the tool clause lists at most the first 3 distinct tool names in
first-seen order, renders a name as `name(count)` exactly when that name
occurs more than once, and carries a `+N more` suffix iff there are more than
3 distinct names, with `N` the distinct-name count minus 3 — i.e. the
executable `toolClause` coincides with the specification-worded
`toolClauseSpec`. -/
theorem toolClause_matches_spec (ip : List MessageContent)
    (h : 0 < (ip.filter isToolUseContent).length) :
    toolClause ip = toolClauseSpec ip := by
  simp only [toolClause, toolClauseSpec]
  have hmap : ((ip.filter isToolUseContent).map toolNameOf).foldl addName [] =
      (firstSeen ((ip.filter isToolUseContent).map toolNameOf)).map
        (fun n =>
          (n, ((ip.filter isToolUseContent).map toolNameOf).count n)) := by
    rw [foldl_addName]
    simp [hasKey]
  rw [hmap]
  rw [List.map_map, ← List.map_take]
  simp only [List.length_map, List.length_take, Function.comp, renderToolEntry]
  apply if_congr
  · constructor
    · intro hlt
      omega
    · intro hlt
      omega
  · congr 1
    congr 1
    exact congrArg toString (by omega)
  · rfl

theorem toolClause_matches_spec_witness :
    0 < (([MessageContent.toolUse "1" "Read" [],
      MessageContent.toolUse "2" "Read" [],
      MessageContent.toolUse "3" "Bash" []] :
      List MessageContent).filter isToolUseContent).length ∧
    toolClause [MessageContent.toolUse "1" "Read" [],
      MessageContent.toolUse "2" "Read" [],
      MessageContent.toolUse "3" "Bash" []] =
      toolClauseSpec [MessageContent.toolUse "1" "Read" [],
        MessageContent.toolUse "2" "Read" [],
        MessageContent.toolUse "3" "Bash" []] :=
  ⟨by decide, toolClause_matches_spec [MessageContent.toolUse "1" "Read" [],
    MessageContent.toolUse "2" "Read" [],
    MessageContent.toolUse "3" "Bash" []] (by decide)⟩
